import Mathlib

/-!
Verification of the self-calibration catalog generator
(`rubin_sim/selfcal/generate_catalog.py`).

The numeric code is modeled over an arbitrary linear ordered field `K`.
The transcendental primitives the code takes from numpy (`cos`, `sin`,
`sqrt`, `pi`) are supplied as an explicit oracle record `NumOps K`, so
every definition stays executable; theorems that genuinely need a
property of a primitive (e.g. that `sqrt` squares back) take it as an
explicit hypothesis on the oracle.

External collaborators of the core (the star projection routine, the
patch assignment routine and the magnitude-uncertainty model) are passed
in as function parameters, mirroring their narrow call interfaces.
-/

namespace RubinSelfcal

structure NumOps (K : Type) where
  cos : K → K
  sin : K → K
  sqrt : K → K
  pi : K

variable {K : Type} [LinearOrderedField K]

/-- numpy `radians`: convert degrees to radians. -/
def radians (N : NumOps K) (x : K) : K := x * N.pi / 180

/-- `wrapRA`: `ra % 360.0`, Python modulo with a positive modulus,
i.e. `ra - 360 * floor (ra / 360)`. -/
def wrapRA [FloorRing K] (ra : K) : K := ra - 360 * (⌊ra / 360⌋ : ℤ)

/-- `capDec`: two `np.where` passes terminating declination at plus/minus 90. -/
def capDec (dec : K) : K :=
  let d1 := if 90 < dec then 90 else dec
  if d1 < -90 then -90 else d1

/-- `treexyz`: x/y/z values for an ra/dec point given in radians. -/
def treexyz (N : NumOps K) (ra dec : K) : K × K × K :=
  (N.cos dec * N.cos ra, N.cos dec * N.sin ra, N.sin dec)

/-- Euclidean point-to-point distance in 3-space, as the kd-tree metric uses it. -/
def dist3 (N : NumOps K) (p q : K × K × K) : K :=
  N.sqrt ((p.1 - q.1) ^ 2 + (p.2.1 - q.2.1) ^ 2 + (p.2.2 - q.2.2) ^ 2)

/-- `buildTree`: validates that the inputs look like radians and that they are
nonempty, then stores the unit vectors of all points. The kd-tree itself is
modeled by the list of its points; queries are modeled by their contract. -/
def buildTree (N : NumOps K) (simDataRa simDataDec : List K) :
    Except String (List (K × K × K)) :=
  if simDataRa.any (fun x => decide (N.pi * 2 < |x|))
      || simDataDec.any (fun x => decide (N.pi * 2 < |x|)) then
    Except.error "Expecting RA and Dec values to be in radians."
  else
    let data := List.zipWith (fun a d => treexyz N a d) simDataRa simDataDec
    if 0 < data.length then Except.ok data
    else Except.error "SimDataRA and Dec should have length greater than 0."

/-- `scipy.spatial.cKDTree.query_ball_point`: the indices of all stored points
whose Euclidean distance to the query point is at most `r`. -/
def queryBallPoint (N : NumOps K) (data : List (K × K × K)) (c : K × K × K)
    (r : K) : List ℕ :=
  (List.range data.length).filter
    (fun i => decide (dist3 N (data.getD i (0, 0, 0)) c ≤ r))

/-- The kd-tree search radius of `generate_catalog`: the straight-line distance
between the unit vector `(1,0,0)` and the unit vector at angular offset
`radius_fov` (given in degrees, converted to radians), exactly as computed in
the source. -/
def treeRadiusOf (N : NumOps K) (radius_fov : K) : K :=
  N.sqrt (((treexyz N (radians N radius_fov) 0).1 - 1) ^ 2
    + ((treexyz N (radians N radius_fov) 0).2.1 - 0) ^ 2
    + ((treexyz N (radians N radius_fov) 0).2.2 - 0) ^ 2)

/-- One row of the input star catalog: identifier, true sky position in degrees
and the true magnitude columns, one per band name (the code reads column
`"%smag" % lsst_filter`, modeled as `mags band`). -/
structure Star (K : Type) where
  id : Int
  ra : K
  decl : K
  mags : String → K

/-- A catalog row extended with the zero-initialized working columns that
`generate_catalog` merges on (`x`, `y`, `radius`, `patch_id`, `sub_patch`,
`observed_mag`, `mag_uncert`). -/
structure ExtStar (K : Type) where
  base : Star K
  x : K
  y : K
  radius : K
  patch_id : Int
  sub_patch : Int
  observed_mag : K
  mag_uncert : K

/-- `rfn.merge_arrays` of a catalog row with the zeroed new columns. -/
def extendStar (s : Star K) : ExtStar K :=
  ⟨s, 0, 0, 0, 0, 0, 0, 0⟩

/-- Default row used only to give `List.getD` a value; tree indices are always
in range, so it is never actually selected. -/
def dStar : ExtStar K := extendStar ⟨0, 0, 0, fun _ => 0⟩

/-- One telescope pointing, with the fields the core reads. -/
structure Visit (K : Type) where
  ra : K
  dec : K
  fiveSigmaDepth : K

/-- One offset model instance: it exposes a result key `newkey` and is called
with the candidate stars, the visit, and the dict of deltas produced so far. -/
structure Offset (K : Type) where
  newkey : String
  apply : List (ExtStar K) → Visit K → List (String × List K) → List K

/-- One output record, in the order of `output_cols`:
`id, patch_id, observed_mag, mag_uncert, <band>mag, ra, decl`. -/
structure ObsRecord (K : Type) where
  id : Int
  patch_id : Int
  observed_mag : K
  mag_uncert : K
  truemag : K
  ra : K
  decl : K
deriving DecidableEq

/-- Outcome of `generate_catalog` when it does not raise: either the
no-offsets warning path (which returns `None`), or a produced record list. -/
inductive GenResult (K : Type) where
  | warned
  | results (records : List (ObsRecord K))
deriving DecidableEq

/-- Python dict assignment `d[k] = v`: overwrite in place if the key is
present (keeping its position), append otherwise. -/
def dictInsert (d : List (String × List K)) (k : String) (v : List K) :
    List (String × List K) :=
  if d.any (fun q => q.1 == k) then
    d.map (fun q => if q.1 == k then (k, v) else q)
  else d ++ [(k, v)]

/-- The offset-application loop of `generate_catalog`:
`for offset in offsets: dmags[offset.newkey] = offset(stars_in, visit, dmags)`. -/
def offsetFold (si : List (ExtStar K)) (v : Visit K) (offs : List (Offset K))
    (d0 : List (String × List K)) : List (String × List K) :=
  offs.foldl (fun d o => dictInsert d o.newkey (o.apply si v d)) d0

/-- The delta array each configured offset produces, in chain order, each one
computed against the dict of deltas accumulated before it. -/
def runOffsets (si : List (ExtStar K)) (v : Visit K) :
    List (String × List K) → List (Offset K) → List (String × List K)
  | _, [] => []
  | d, o :: rest =>
    (o.newkey, o.apply si v d) ::
      runOffsets si v (dictInsert d o.newkey (o.apply si v d)) rest

/-- Unit vector of a visit pointing (its ra/dec are in degrees). -/
def visitDir (N : NumOps K) (v : Visit K) : K × K × K :=
  treexyz N (radians N v.ra) (radians N v.dec)

/-- The per-visit spatial query `starTree.query_ball_point((vx,vy,vz), treeRadius)`. -/
def visitIndices (N : NumOps K) (tree : List (K × K × K)) (r : K)
    (v : Visit K) : List ℕ :=
  queryBallPoint N tree (visitDir N v) r

/-- The candidate rows a visit works on: the selected rows (numpy fancy
indexing `stars[indices]` copies them), run through the external projection
and patch-assignment collaborators. -/
def visitCandidates (N : NumOps K)
    (project : List (ExtStar K) → Visit K → List (ExtStar K))
    (assignP : List (ExtStar K) → Visit K → ℕ → List (ExtStar K))
    (tree : List (K × K × K)) (r : K) (n_patches : ℕ)
    (stars : List (ExtStar K)) (v : Visit K) : List (ExtStar K) :=
  assignP (project ((visitIndices N tree r v).map (fun i => stars.getD i dStar)) v)
    v n_patches

/-- The modeled magnitudes of a visit: the true band magnitudes of the
candidates, plus, per entry of the delta dict, the delta array
(`obs_mag = stars_in["%smag"].copy(); for key in keys: obs_mag += dmags[key]`). -/
def obsMags (si : List (ExtStar K)) (v : Visit K) (offs : List (Offset K))
    (band : String) : List K :=
  (offsetFold si v offs []).foldl
    (fun acc q => List.zipWith (fun x y => x + y) acc q.2)
    (si.map (fun s => s.base.mags band))

/-- The reported uncertainties:
`(mag_uncert.calc_mag_errors(obs_mag, m5)**2 + uncert_floor**2)**0.5`,
with the external uncertainty model `um` applied per modeled magnitude. -/
def magErrs (N : NumOps K) (um : K → K → K) (obs : List K) (m5 uf : K) :
    List K :=
  obs.map (fun m => N.sqrt (um m m5 ^ 2 + uf ^ 2))

/-- The body of the per-visit loop: select candidates, apply the offset chain,
total the deltas, compute uncertainties, write both per-visit columns into the
candidate copy and project down to the output schema. -/
def processVisit (N : NumOps K)
    (project : List (ExtStar K) → Visit K → List (ExtStar K))
    (assignP : List (ExtStar K) → Visit K → ℕ → List (ExtStar K))
    (um : K → K → K) (tree : List (K × K × K)) (r : K)
    (offs : List (Offset K)) (band : String) (n_patches : ℕ) (uf : K)
    (stars : List (ExtStar K)) (v : Visit K) : List (ObsRecord K) :=
  let si := visitCandidates N project assignP tree r n_patches stars v
  let obs := obsMags si v offs band
  let errs := magErrs N um obs v.fiveSigmaDepth uf
  ((si.zip (obs.zip errs)).map (fun q =>
      (⟨q.1.base, q.1.x, q.1.y, q.1.radius, q.1.patch_id, q.1.sub_patch,
        q.2.1, q.2.2⟩ : ExtStar K))).map
    (fun s => ⟨s.base.id, s.patch_id, s.observed_mag, s.mag_uncert,
      s.base.mags band, s.base.ra, s.base.decl⟩)

/-- One iteration of the main loop, threading the shared catalog explicitly:
numpy fancy indexing `stars[indices]` allocates a fresh copy of the selected
rows, so all per-visit writes land on that copy and the shared catalog is
passed through untouched. -/
def visitStep (N : NumOps K)
    (project : List (ExtStar K) → Visit K → List (ExtStar K))
    (assignP : List (ExtStar K) → Visit K → ℕ → List (ExtStar K))
    (um : K → K → K) (tree : List (K × K × K)) (r : K)
    (offs : List (Offset K)) (band : String) (n_patches : ℕ) (uf : K)
    (acc : List (ExtStar K) × List (List (ObsRecord K))) (v : Visit K) :
    List (ExtStar K) × List (List (ObsRecord K)) :=
  (acc.1,
    acc.2 ++ [processVisit N project assignP um tree r offs band n_patches uf acc.1 v])

/-- `generate_catalog`. The RNG seed is not modeled (no stochastic offset is
part of the core) and the progress output is I/O only. `np.concatenate` on an
empty list raises, which is how an empty visit sequence surfaces. -/
def generate_catalog (N : NumOps K)
    (project : List (ExtStar K) → Visit K → List (ExtStar K))
    (assignP : List (ExtStar K) → Visit K → ℕ → List (ExtStar K))
    (um : K → K → K) (visits : List (Visit K)) (stars_array : List (Star K))
    (offsets : Option (List (Offset K))) (lsst_filter : String)
    (n_patches : ℕ) (radius_fov : K) (uncert_floor : K) :
    Except String (GenResult K) :=
  match offsets with
  | none => Except.ok GenResult.warned
  | some offs =>
    let treeRadius := treeRadiusOf N radius_fov
    let stars := stars_array.map extendStar
    match buildTree N (stars.map (fun s => radians N s.base.ra))
        (stars.map (fun s => radians N s.base.decl)) with
    | Except.error e => Except.error e
    | Except.ok starTree =>
      let res := visits.foldl
        (visitStep N project assignP um starTree treeRadius offs lsst_filter
          n_patches uncert_floor)
        (stars, [])
      if res.2.length = 0 then
        Except.error "need at least one array to concatenate"
      else Except.ok (GenResult.results res.2.flatten)

/-! Concrete fixtures used by witness and counterexample theorems. The
oracle instances are deliberately simple: nothing in the pipeline forces the
trig oracle to be real trigonometry, and choosing `pi := 180` makes the
degree-to-radian conversion the identity. -/

/-- Oracle over the rationals with constant trig values and constant sqrt. -/
def qNum (s : ℚ) : NumOps ℚ := ⟨fun _ => 1, fun _ => 0, fun _ => s, 180⟩

/-- Oracle over the rationals whose cosine separates pointings and whose
sqrt is the identity (only ever applied to 0 and 1 in the fixtures). -/
def qNum2 : NumOps ℚ := ⟨fun x => 1 - x, fun _ => 0, fun x => x, 180⟩

/-- Projection collaborator that adds no information. -/
def idProj : List (ExtStar ℚ) → Visit ℚ → List (ExtStar ℚ) := fun si _ => si

/-- Patch-assignment collaborator that adds no information. -/
def idPatch : List (ExtStar ℚ) → Visit ℚ → ℕ → List (ExtStar ℚ) := fun si _ _ => si

/-- Uncertainty model returning a zero base error. -/
def zeroUm : ℚ → ℚ → ℚ := fun _ _ => 0

/-- One catalog star at ra=0, dec=0 with magnitude 15 in every band. -/
def star1 : Star ℚ := ⟨1, 0, 0, fun _ => 15⟩

/-- One visit pointed at ra=0, dec=0 with a five-sigma depth of 24. -/
def visit1 : Visit ℚ := ⟨0, 0, 24⟩

/-! Helper lemmas about the loop, the zip bookkeeping and the delta dict. -/

lemma foldl_visitStep (N : NumOps K)
    (project : List (ExtStar K) → Visit K → List (ExtStar K))
    (assignP : List (ExtStar K) → Visit K → ℕ → List (ExtStar K))
    (um : K → K → K) (tree : List (K × K × K)) (r : K)
    (offs : List (Offset K)) (band : String) (np : ℕ) (uf : K) :
    ∀ (visits : List (Visit K)) (cat : List (ExtStar K))
      (out : List (List (ObsRecord K))),
      visits.foldl (visitStep N project assignP um tree r offs band np uf) (cat, out)
        = (cat, out ++ visits.map (processVisit N project assignP um tree r offs band np uf cat)) := by
  intro visits
  induction visits with
  | nil => intro cat out; simp
  | cons v vs ih =>
    intro cat out
    rw [List.foldl_cons]
    show (vs.foldl _ (cat, out ++ [processVisit N project assignP um tree r offs band np uf cat v])) = _
    rw [ih]
    simp

lemma mem_zip_triple {α β γ : Type} :
    ∀ {l1 : List α} {l2 : List β} {l3 : List γ} {p : α × β × γ},
      p ∈ l1.zip (l2.zip l3) →
      ∃ (j : ℕ) (h1 : j < l1.length) (h2 : j < l2.length) (h3 : j < l3.length),
        l1[j] = p.1 ∧ l2[j] = p.2.1 ∧ l3[j] = p.2.2 := by
  intro l1
  induction l1 with
  | nil => intro l2 l3 p h; simp at h
  | cons a l1 ih =>
    intro l2 l3 p h
    cases l2 with
    | nil => simp at h
    | cons b l2 =>
      cases l3 with
      | nil => simp at h
      | cons c l3 =>
        rw [List.zip_cons_cons, List.zip_cons_cons] at h
        rcases List.mem_cons.mp h with h | h
        · subst h
          exact ⟨0, Nat.succ_pos _, Nat.succ_pos _, Nat.succ_pos _, rfl, rfl, rfl⟩
        · obtain ⟨j, h1, h2, h3, e1, e2, e3⟩ := ih h
          exact ⟨j + 1, Nat.succ_lt_succ h1, Nat.succ_lt_succ h2, Nat.succ_lt_succ h3,
            by simpa using e1, by simpa using e2, by simpa using e3⟩

lemma zipWith_add_getD (l1 l2 : List K) (j : ℕ) (h1 : j < l1.length)
    (h2 : j < l2.length) :
    (List.zipWith (fun x y => x + y) l1 l2).getD j 0 = l1.getD j 0 + l2.getD j 0 := by
  have hl : j < (List.zipWith (fun x y => x + y) l1 l2).length := by
    rw [List.length_zipWith]; exact lt_min h1 h2
  rw [List.getD_eq_getElem _ _ hl, List.getD_eq_getElem _ _ h1,
    List.getD_eq_getElem _ _ h2, List.getElem_zipWith]

lemma foldl_zipWith_length :
    ∀ (ds : List (String × List K)) (init : List K),
      (∀ q ∈ ds, q.2.length = init.length) →
      (ds.foldl (fun acc q => List.zipWith (fun x y => x + y) acc q.2) init).length
        = init.length := by
  intro ds
  induction ds with
  | nil => intro init _; rfl
  | cons q ds ih =>
    intro init hlen
    have hq : q.2.length = init.length := hlen q (List.mem_cons_self q ds)
    have hz : (List.zipWith (fun x y => x + y) init q.2).length = init.length := by
      rw [List.length_zipWith, hq]; exact min_self _
    rw [List.foldl_cons,
      ih _ (fun p hp => by rw [hlen p (List.mem_cons_of_mem q hp), hz]), hz]

lemma foldl_zipWith_getD :
    ∀ (ds : List (String × List K)) (init : List K),
      (∀ q ∈ ds, q.2.length = init.length) → ∀ j : ℕ, j < init.length →
      (ds.foldl (fun acc q => List.zipWith (fun x y => x + y) acc q.2) init).getD j 0
        = init.getD j 0 + (ds.map (fun q => q.2.getD j 0)).sum := by
  intro ds
  induction ds with
  | nil => intro init _ j _; simp
  | cons q ds ih =>
    intro init hlen j hj
    have hq : q.2.length = init.length := hlen q (List.mem_cons_self q ds)
    have hz : (List.zipWith (fun x y => x + y) init q.2).length = init.length := by
      rw [List.length_zipWith, hq]; exact min_self _
    rw [List.foldl_cons,
      ih _ (fun p hp => by rw [hlen p (List.mem_cons_of_mem q hp), hz]) j (by rw [hz]; exact hj),
      zipWith_add_getD init q.2 j hj (by rw [hq]; exact hj)]
    simp [add_assoc]

lemma foldl_zipWith_nil (ds : List (String × List K)) :
    ds.foldl (fun acc q => List.zipWith (fun x y => x + y) acc q.2) [] = [] := by
  induction ds with
  | nil => rfl
  | cons q ds ih => simpa using ih

omit [LinearOrderedField K] in
lemma dictInsert_of_not_mem (d : List (String × List K)) (k : String) (v : List K)
    (h : ∀ q ∈ d, q.1 ≠ k) : dictInsert d k v = d ++ [(k, v)] := by
  have hfalse : d.any (fun q => q.1 == k) = false := by
    rw [List.any_eq_false]
    intro q hq
    simpa [beq_iff_eq] using h q hq
  simp [dictInsert, hfalse]

omit [LinearOrderedField K] in
lemma offsetFold_eq_runOffsets (si : List (ExtStar K)) (v : Visit K) :
    ∀ (offs : List (Offset K)) (d : List (String × List K)),
      (offs.map Offset.newkey).Nodup →
      (∀ o ∈ offs, ∀ q ∈ d, q.1 ≠ o.newkey) →
      offsetFold si v offs d = d ++ runOffsets si v d offs := by
  intro offs
  induction offs with
  | nil => intro d _ _; simp [offsetFold, runOffsets]
  | cons o rest ih =>
    intro d hnodup hdisj
    have hins : dictInsert d o.newkey (o.apply si v d) = d ++ [(o.newkey, o.apply si v d)] :=
      dictInsert_of_not_mem _ _ _ (fun q hq => hdisj o (List.mem_cons_self o rest) q hq)
    have hcons : (∀ x ∈ rest, ¬x.newkey = o.newkey) ∧ (rest.map Offset.newkey).Nodup := by
      simpa using hnodup
    have hdisj2 : ∀ o2 ∈ rest, ∀ q ∈ dictInsert d o.newkey (o.apply si v d),
        q.1 ≠ o2.newkey := by
      intro o2 ho2 q hq
      rw [hins] at hq
      rcases List.mem_append.mp hq with hq | hq
      · exact hdisj o2 (List.mem_cons_of_mem o ho2) q hq
      · have hq1 : q.1 = o.newkey := by
          have hq2 : q = (o.newkey, o.apply si v d) := by simpa using hq
          rw [hq2]
        intro hcon
        exact hcons.1 o2 ho2 (by rw [← hcon, hq1])
    have hstep : offsetFold si v (o :: rest) d
        = offsetFold si v rest (dictInsert d o.newkey (o.apply si v d)) := rfl
    rw [hstep, ih (dictInsert d o.newkey (o.apply si v d)) hcons.2 hdisj2]
    simp only [runOffsets]
    rw [hins, List.append_assoc, List.singleton_append]

omit [LinearOrderedField K] in
lemma runOffsets_length (si : List (ExtStar K)) (v : Visit K) :
    ∀ (offs : List (Offset K)) (d : List (String × List K)),
      (∀ o ∈ offs, ∀ d2, (o.apply si v d2).length = si.length) →
      ∀ q ∈ runOffsets si v d offs, q.2.length = si.length := by
  intro offs
  induction offs with
  | nil => intro d _ q hq; simp [runOffsets] at hq
  | cons o rest ih =>
    intro d h q hq
    simp only [runOffsets] at hq
    rcases List.mem_cons.mp hq with rfl | hq
    · exact h o (List.mem_cons_self _ _) d
    · exact ih _ (fun o2 ho2 d2 => h o2 (List.mem_cons_of_mem _ ho2) d2) q hq

omit [LinearOrderedField K] in
lemma getD_map_of_lt {α β : Type} (f : α → β) (l : List α) (j : ℕ)
    (h : j < l.length) (d1 : β) (d0 : α) :
    (l.map f).getD j d1 = f (l.getD j d0) := by
  rw [List.getD_eq_getElem _ _ (by simpa using h), List.getD_eq_getElem _ _ h,
    List.getElem_map]

/-- Dissection of one output record of `processVisit`: each record comes from
an index `j` into the candidate rows, carries the modeled magnitude at `j`,
the uncertainty computed from that modeled magnitude, and the true band
magnitude and identifiers of candidate row `j`. -/
lemma processVisit_mem (N : NumOps K)
    (project : List (ExtStar K) → Visit K → List (ExtStar K))
    (assignP : List (ExtStar K) → Visit K → ℕ → List (ExtStar K))
    (um : K → K → K) (tree : List (K × K × K)) (r : K)
    (offs : List (Offset K)) (band : String) (np : ℕ) (uf : K)
    (stars : List (ExtStar K)) (v : Visit K) (rec : ObsRecord K)
    (h : rec ∈ processVisit N project assignP um tree r offs band np uf stars v) :
    ∃ j : ℕ,
      j < (visitCandidates N project assignP tree r np stars v).length ∧
      j < (obsMags (visitCandidates N project assignP tree r np stars v) v offs band).length ∧
      rec.observed_mag
        = (obsMags (visitCandidates N project assignP tree r np stars v) v offs band).getD j 0 ∧
      rec.mag_uncert = N.sqrt (um rec.observed_mag v.fiveSigmaDepth ^ 2 + uf ^ 2) ∧
      rec.truemag
        = ((visitCandidates N project assignP tree r np stars v).getD j dStar).base.mags band ∧
      rec.id = ((visitCandidates N project assignP tree r np stars v).getD j dStar).base.id := by
  simp only [processVisit, List.mem_map] at h
  obtain ⟨s, ⟨q, hq, hsq⟩, hrec⟩ := h
  obtain ⟨j, h1, h2, h3, e1, e2, e3⟩ := mem_zip_triple hq
  subst hsq
  subst hrec
  refine ⟨j, h1, h2, ?_, ?_, ?_, ?_⟩
  · show q.2.1 = _
    rw [List.getD_eq_getElem _ _ h2, e2]
  · show q.2.2 = N.sqrt (um q.2.1 v.fiveSigmaDepth ^ 2 + uf ^ 2)
    have hD : (magErrs N um
        (obsMags (visitCandidates N project assignP tree r np stars v) v offs band)
        v.fiveSigmaDepth uf).getD j 0 = q.2.2 := by
      rw [List.getD_eq_getElem _ _ h3]
      exact e3
    have hmap : (magErrs N um
        (obsMags (visitCandidates N project assignP tree r np stars v) v offs band)
        v.fiveSigmaDepth uf).getD j 0
        = N.sqrt (um ((obsMags (visitCandidates N project assignP tree r np stars v)
            v offs band).getD j 0) v.fiveSigmaDepth ^ 2 + uf ^ 2) :=
      getD_map_of_lt _ _ j h2 0 0
    rw [← hD, hmap, List.getD_eq_getElem _ _ h2, e2]
  · show q.1.base.mags band = _
    rw [List.getD_eq_getElem _ _ h1, e1]
  · show q.1.base.id = _
    rw [List.getD_eq_getElem _ _ h1, e1]

/-- Unfolding of a successful `generate_catalog` run: the visit list is
nonempty and the records are the concatenation, in visit order, of the
per-visit record lists, all computed against the same extended catalog. -/
lemma generate_catalog_ok (N : NumOps K)
    (project : List (ExtStar K) → Visit K → List (ExtStar K))
    (assignP : List (ExtStar K) → Visit K → ℕ → List (ExtStar K))
    (um : K → K → K) (visits : List (Visit K)) (stars : List (Star K))
    (offs : List (Offset K)) (band : String) (np : ℕ) (rf uf : K)
    (tree : List (K × K × K)) (recs : List (ObsRecord K))
    (htree : buildTree N ((stars.map extendStar).map (fun s => radians N s.base.ra))
        ((stars.map extendStar).map (fun s => radians N s.base.decl)) = Except.ok tree)
    (hgen : generate_catalog N project assignP um visits stars (some offs) band np rf uf
        = Except.ok (GenResult.results recs)) :
    visits ≠ [] ∧
    recs = (visits.map (processVisit N project assignP um tree (treeRadiusOf N rf)
        offs band np uf (stars.map extendStar))).flatten := by
  simp only [generate_catalog] at hgen
  split at hgen
  · exact absurd hgen (by simp)
  rename_i starTree heq
  rw [htree] at heq
  cases Except.ok.inj heq
  rw [foldl_visitStep] at hgen
  simp only [List.nil_append] at hgen
  by_cases hlen : (visits.map (processVisit N project assignP um tree (treeRadiusOf N rf)
      offs band np uf (stars.map extendStar))).length = 0
  · rw [if_pos hlen] at hgen
    exact absurd hgen (by simp)
  · rw [if_neg hlen] at hgen
    have hrecs : recs = (visits.map (processVisit N project assignP um tree (treeRadiusOf N rf)
        offs band np uf (stars.map extendStar))).flatten := by
      have := Except.ok.inj hgen
      exact (GenResult.results.inj this).symm
    refine ⟨?_, hrecs⟩
    intro hcon
    subst hcon
    exact hlen rfl

lemma buildTree_error_of_bad (N : NumOps K) (ras decs : List K)
    (h : ras.any (fun x => decide (N.pi * 2 < |x|)) = true
       ∨ decs.any (fun x => decide (N.pi * 2 < |x|)) = true) :
    buildTree N ras decs
      = Except.error "Expecting RA and Dec values to be in radians." := by
  unfold buildTree
  rcases h with h | h <;> simp [h]

lemma generate_catalog_error (N : NumOps K)
    (project : List (ExtStar K) → Visit K → List (ExtStar K))
    (assignP : List (ExtStar K) → Visit K → ℕ → List (ExtStar K))
    (um : K → K → K) (visits : List (Visit K)) (stars : List (Star K))
    (offs : List (Offset K)) (band : String) (np : ℕ) (rf uf : K) (e : String)
    (htree : buildTree N ((stars.map extendStar).map (fun s => radians N s.base.ra))
        ((stars.map extendStar).map (fun s => radians N s.base.decl)) = Except.error e) :
    generate_catalog N project assignP um visits stars (some offs) band np rf uf
      = Except.error e := by
  simp only [generate_catalog]
  split
  · rename_i e2 heq
    rw [htree] at heq
    cases Except.error.inj heq
    rfl
  · rename_i starTree heq
    rw [htree] at heq
    exact absurd heq (by simp)

lemma generate_catalog_of_empty_visits (N : NumOps K)
    (project : List (ExtStar K) → Visit K → List (ExtStar K))
    (assignP : List (ExtStar K) → Visit K → ℕ → List (ExtStar K))
    (um : K → K → K) (stars : List (Star K))
    (offs : List (Offset K)) (band : String) (np : ℕ) (rf uf : K) :
    ∃ e, generate_catalog N project assignP um [] stars (some offs) band np rf uf
      = Except.error e := by
  simp only [generate_catalog]
  split
  · exact ⟨_, rfl⟩
  · exact ⟨_, rfl⟩

/-- C2: every star index returned by a per-visit spatial query has Euclidean
chord distance from the visit direction unit vector at most the tree radius,
and the tree radius is the straight-line distance between the unit vector
(1,0,0) and the unit vector at angular offset radius_fov. -/
theorem C2_selection_within_radius (K : Type) [LinearOrderedField K] (N : NumOps K)
    (tree : List (K × K × K)) (radius_fov : K) (v : Visit K) (i : ℕ)
    (h : i ∈ visitIndices N tree (treeRadiusOf N radius_fov) v) :
    dist3 N (tree.getD i (0, 0, 0)) (visitDir N v) ≤ treeRadiusOf N radius_fov ∧
    treeRadiusOf N radius_fov
      = N.sqrt (((treexyz N (radians N radius_fov) 0).1 - 1) ^ 2
        + ((treexyz N (radians N radius_fov) 0).2.1 - 0) ^ 2
        + ((treexyz N (radians N radius_fov) 0).2.2 - 0) ^ 2) := by
  constructor
  · simp only [visitIndices, queryBallPoint, List.mem_filter] at h
    exact of_decide_eq_true h.2
  · rfl

theorem C2_selection_within_radius_witness :
    dist3 qNum2 ([((1 : ℚ), (0 : ℚ), (0 : ℚ))].getD 0 (0, 0, 0)) (visitDir qNum2 visit1)
        ≤ treeRadiusOf qNum2 0 ∧
    treeRadiusOf qNum2 0
      = qNum2.sqrt (((treexyz qNum2 (radians qNum2 0) 0).1 - 1) ^ 2
        + ((treexyz qNum2 (radians qNum2 0) 0).2.1 - 0) ^ 2
        + ((treexyz qNum2 (radians qNum2 0) 0).2.2 - 0) ^ 2) :=
  C2_selection_within_radius ℚ qNum2 [(1, 0, 0)] 0 visit1 0 (by
    norm_num [visitIndices, queryBallPoint, dist3, qNum2, treeRadiusOf, treexyz,
      radians, visit1, visitDir, List.range_succ])

/-- C4: with offsets unconfigured (the None default), generate_catalog takes
the warning path: it does no per-visit processing and returns no result, and
this is not an error. -/
theorem C4_no_offsets_warns (K : Type) [LinearOrderedField K] (N : NumOps K)
    (project : List (ExtStar K) → Visit K → List (ExtStar K))
    (assignP : List (ExtStar K) → Visit K → ℕ → List (ExtStar K))
    (um : K → K → K) (visits : List (Visit K)) (stars : List (Star K))
    (band : String) (np : ℕ) (rf uf : K) :
    generate_catalog N project assignP um visits stars none band np rf uf
      = Except.ok GenResult.warned := rfl

/-- C5 (counterexample): a visit angle converting to more than 2π radians is
never validated — generate_catalog runs to completion and produces a record
instead of failing fast with an invalid-input error. -/
theorem C5_counterexample :
    generate_catalog (qNum 0) idProj idPatch zeroUm [⟨720, 0, 24⟩] [star1] (some [])
        "r" 16 0 0
      = Except.ok (GenResult.results [⟨1, 0, 15, 0, 15, 0, 0⟩]) ∧
    (qNum 0).pi * 2 < |radians (qNum 0) (720 : ℚ)| := by
  constructor
  · norm_num [generate_catalog, buildTree, treexyz, radians, qNum, star1, extendStar,
      treeRadiusOf, visitStep, processVisit, visitCandidates, visitIndices, queryBallPoint,
      dist3, visitDir, idProj, idPatch, obsMags, magErrs, offsetFold, zeroUm,
      List.range_succ]
  · norm_num [qNum, radians]

/-- C5 (amended): generate_catalog raises an error whenever a star angle
converts to magnitude above 2π radians, the star catalog is empty, or the
visit sequence is empty (the last at final concatenation); visit angles are
not validated. -/
theorem C5_amended_invalid_inputs (K : Type) [LinearOrderedField K] (N : NumOps K)
    (project : List (ExtStar K) → Visit K → List (ExtStar K))
    (assignP : List (ExtStar K) → Visit K → ℕ → List (ExtStar K))
    (um : K → K → K) (visits : List (Visit K)) (stars : List (Star K))
    (offs : List (Offset K)) (band : String) (np : ℕ) (rf uf : K)
    (h : (∃ s ∈ stars, N.pi * 2 < |radians N s.ra|)
      ∨ (∃ s ∈ stars, N.pi * 2 < |radians N s.decl|)
      ∨ stars = [] ∨ visits = []) :
    ∃ e, generate_catalog N project assignP um visits stars (some offs) band np rf uf
      = Except.error e := by
  rcases h with ⟨s, hs, hbad⟩ | ⟨s, hs, hbad⟩ | rfl | rfl
  · refine ⟨_, generate_catalog_error N project assignP um visits stars offs band np rf uf _
      (buildTree_error_of_bad N _ _ (Or.inl ?_))⟩
    rw [List.any_eq_true]
    exact ⟨radians N s.ra, List.mem_map_of_mem _ (List.mem_map_of_mem extendStar hs),
      decide_eq_true hbad⟩
  · refine ⟨_, generate_catalog_error N project assignP um visits stars offs band np rf uf _
      (buildTree_error_of_bad N _ _ (Or.inr ?_))⟩
    rw [List.any_eq_true]
    exact ⟨radians N s.decl, List.mem_map_of_mem _ (List.mem_map_of_mem extendStar hs),
      decide_eq_true hbad⟩
  · exact ⟨_, generate_catalog_error N project assignP um visits [] offs band np rf uf _ rfl⟩
  · exact generate_catalog_of_empty_visits N project assignP um stars offs band np rf uf

theorem C5_amended_invalid_inputs_witness :
    ∃ e, generate_catalog (qNum 0) idProj idPatch zeroUm [visit1] ([] : List (Star ℚ))
        (some []) "r" 16 0 0 = Except.error e :=
  C5_amended_invalid_inputs ℚ (qNum 0) idProj idPatch zeroUm [visit1] [] [] "r" 16 0 0
    (Or.inr (Or.inr (Or.inl rfl)))

/-- C6 (counterexample): two offsets sharing result key "a", producing deltas
1 and 2: the run succeeds — no duplicate-key error — and the output magnitude
is 15 + 2, carrying only the later offset's delta. -/
theorem C6_counterexample :
    generate_catalog (qNum 0) idProj idPatch zeroUm [visit1] [star1]
        (some [⟨"a", fun si _ _ => si.map (fun _ => 1)⟩,
          ⟨"a", fun si _ _ => si.map (fun _ => 2)⟩]) "r" 16 0 0
      = Except.ok (GenResult.results [⟨1, 0, 17, 0, 15, 0, 0⟩]) := by
  norm_num [generate_catalog, buildTree, treexyz, radians, qNum, star1, extendStar,
    treeRadiusOf, visitStep, processVisit, visitCandidates, visitIndices, queryBallPoint,
    dist3, visitDir, idProj, idPatch, obsMags, magErrs, offsetFold, dictInsert, zeroUm,
    List.range_succ]

/-- C6 (amended): on a duplicate key the composition loop does not fail; the
later offset's delta silently replaces the earlier one's dict entry (the later
offset is still handed the earlier delta when invoked). -/
theorem C6_amended_silent_overwrite (K : Type) [LinearOrderedField K]
    (si : List (ExtStar K)) (v : Visit K) (o1 o2 : Offset K)
    (h : o1.newkey = o2.newkey) :
    offsetFold si v [o1, o2] []
      = [(o2.newkey, o2.apply si v [(o1.newkey, o1.apply si v [])])] := by
  have h1 : offsetFold si v [o1, o2] []
      = dictInsert [(o1.newkey, o1.apply si v [])] o2.newkey
          (o2.apply si v [(o1.newkey, o1.apply si v [])]) := rfl
  rw [h1, dictInsert, if_pos (by simp [h]), List.map_singleton, if_pos (by simp [h])]

theorem C6_amended_silent_overwrite_witness :
    offsetFold ([dStar] : List (ExtStar ℚ)) visit1
        [⟨"a", fun si _ _ => si.map (fun _ => 1)⟩, ⟨"a", fun si _ _ => si.map (fun _ => 2)⟩] []
      = [("a", (⟨"a", fun si _ _ => si.map (fun _ => 2)⟩ : Offset ℚ).apply [dStar] visit1
          [("a", (⟨"a", fun si _ _ => si.map (fun _ => 1)⟩ : Offset ℚ).apply [dStar] visit1 [])])] :=
  C6_amended_silent_overwrite ℚ [dStar] visit1 _ _ rfl

/-- C7: the shared extended star catalog threaded through the per-visit loop
comes out unchanged after any sequence of visits, and every visit's records
are computed against that same untouched catalog (all derived per-visit
fields live only on the per-visit candidate copies). -/
theorem C7_catalog_not_mutated (K : Type) [LinearOrderedField K] (N : NumOps K)
    (project : List (ExtStar K) → Visit K → List (ExtStar K))
    (assignP : List (ExtStar K) → Visit K → ℕ → List (ExtStar K))
    (um : K → K → K) (tree : List (K × K × K)) (r : K)
    (offs : List (Offset K)) (band : String) (np : ℕ) (uf : K)
    (visits : List (Visit K)) (catalog : List (ExtStar K))
    (out : List (List (ObsRecord K))) :
    (visits.foldl (visitStep N project assignP um tree r offs band np uf) (catalog, out)).1
      = catalog ∧
    (visits.foldl (visitStep N project assignP um tree r offs band np uf) (catalog, out)).2
      = out ++ visits.map (processVisit N project assignP um tree r offs band np uf catalog) := by
  rw [foldl_visitStep]
  exact ⟨rfl, rfl⟩

/-- C9: wrapRA is invariant under shifting by whole multiples of 360 degrees
and its value always lies in [0, 360). -/
theorem C9_wrapRA_normalization (K : Type) [LinearOrderedField K] [FloorRing K]
    (x : K) (k : ℤ) :
    wrapRA (x + 360 * (k : K)) = wrapRA x ∧ 0 ≤ wrapRA x ∧ wrapRA x < 360 := by
  have h360 : (0 : K) < 360 := by norm_num
  have hdiv : (360 : K) * (x / 360) = x := by field_simp
  refine ⟨?_, ?_, ?_⟩
  · unfold wrapRA
    have hq : (x + 360 * (k : K)) / 360 = x / 360 + (k : K) := by
      field_simp
      ring
    rw [hq, Int.floor_add_int]
    push_cast
    ring
  · unfold wrapRA
    have h1 : (360 : K) * (⌊x / 360⌋ : K) ≤ 360 * (x / 360) :=
      mul_le_mul_of_nonneg_left (Int.floor_le _) (le_of_lt h360)
    linarith
  · unfold wrapRA
    have h1 : 360 * (x / 360) < 360 * ((⌊x / 360⌋ : K) + 1) :=
      (mul_lt_mul_left h360).mpr (Int.lt_floor_add_one _)
    linarith

/-- Offset fixture: key "zp", constant delta -1/10 for every candidate. -/
def offZp : Offset ℚ := ⟨"zp", fun si _ _ => si.map (fun _ => -(1/10))⟩

/-- Visit fixture pointing away from the fixture star under `qNum2`. -/
def visitFar : Visit ℚ := ⟨1, 0, 24⟩

lemma generate_catalog_runs (N : NumOps K)
    (project : List (ExtStar K) → Visit K → List (ExtStar K))
    (assignP : List (ExtStar K) → Visit K → ℕ → List (ExtStar K))
    (um : K → K → K) (visits : List (Visit K)) (stars : List (Star K))
    (offs : List (Offset K)) (band : String) (np : ℕ) (rf uf : K)
    (tree : List (K × K × K))
    (hvis : visits ≠ [])
    (htree : buildTree N ((stars.map extendStar).map (fun s => radians N s.base.ra))
        ((stars.map extendStar).map (fun s => radians N s.base.decl)) = Except.ok tree) :
    generate_catalog N project assignP um visits stars (some offs) band np rf uf
      = Except.ok (GenResult.results ((visits.map (processVisit N project assignP um tree
          (treeRadiusOf N rf) offs band np uf (stars.map extendStar))).flatten)) := by
  simp only [generate_catalog]
  split
  · rename_i e heq
    rw [htree] at heq
    exact absurd heq (by simp)
  · rename_i starTree heq
    rw [htree] at heq
    cases Except.ok.inj heq
    rw [foldl_visitStep]
    simp only [List.nil_append]
    have hlen : ¬ (visits.map (processVisit N project assignP um tree (treeRadiusOf N rf)
        offs band np uf (stars.map extendStar))).length = 0 := by
      simpa [List.length_eq_zero] using hvis
    rw [if_neg hlen]

/-- C1: in a successful run with pairwise-distinct offset keys and offsets
honoring the alignment contract, every output record's modeled magnitude is
its true band magnitude plus the sum of the deltas each configured offset
produced for that candidate star and visit. -/
theorem C1_composition (K : Type) [LinearOrderedField K] (N : NumOps K)
    (project : List (ExtStar K) → Visit K → List (ExtStar K))
    (assignP : List (ExtStar K) → Visit K → ℕ → List (ExtStar K))
    (um : K → K → K) (visits : List (Visit K)) (stars : List (Star K))
    (offs : List (Offset K)) (band : String) (np : ℕ) (rf uf : K)
    (tree : List (K × K × K)) (recs : List (ObsRecord K))
    (hnodup : (offs.map Offset.newkey).Nodup)
    (halign : ∀ si v d, ∀ o ∈ offs, (Offset.apply o si v d).length = si.length)
    (htree : buildTree N ((stars.map extendStar).map (fun s => radians N s.base.ra))
        ((stars.map extendStar).map (fun s => radians N s.base.decl)) = Except.ok tree)
    (hgen : generate_catalog N project assignP um visits stars (some offs) band np rf uf
        = Except.ok (GenResult.results recs)) :
    ∀ rec ∈ recs, ∃ v ∈ visits, ∃ j : ℕ,
      j < (visitCandidates N project assignP tree (treeRadiusOf N rf) np
        (stars.map extendStar) v).length ∧
      rec.truemag = ((visitCandidates N project assignP tree (treeRadiusOf N rf) np
        (stars.map extendStar) v).getD j dStar).base.mags band ∧
      rec.observed_mag = rec.truemag
        + ((runOffsets (visitCandidates N project assignP tree (treeRadiusOf N rf) np
            (stars.map extendStar) v) v [] offs).map (fun q => q.2.getD j 0)).sum := by
  intro rec hrec
  obtain ⟨hne, hrecs⟩ := generate_catalog_ok N project assignP um visits stars offs band
    np rf uf tree recs htree hgen
  subst hrecs
  rw [List.mem_flatten] at hrec
  obtain ⟨l, hl, hrl⟩ := hrec
  rw [List.mem_map] at hl
  obtain ⟨v, hv, hlv⟩ := hl
  subst hlv
  obtain ⟨j, h1, h2, hobs, hunc, htm, hid⟩ := processVisit_mem N project assignP um tree
    (treeRadiusOf N rf) offs band np uf (stars.map extendStar) v rec hrl
  refine ⟨v, hv, j, h1, htm, ?_⟩
  set si := visitCandidates N project assignP tree (treeRadiusOf N rf) np
    (stars.map extendStar) v with hsidef
  have hfold : offsetFold si v offs [] = runOffsets si v [] offs := by
    have hd : ∀ o ∈ offs, ∀ q ∈ ([] : List (String × List K)), q.1 ≠ o.newkey := by
      intro o ho q hq
      simp at hq
    simpa using offsetFold_eq_runOffsets si v offs [] hnodup hd
  have hlens : ∀ q ∈ runOffsets si v [] offs,
      q.2.length = (si.map (fun s => s.base.mags band)).length := by
    intro q hq
    rw [List.length_map]
    exact runOffsets_length si v offs [] (fun o ho d2 => halign si v d2 o ho) q hq
  have hjlt : j < (si.map (fun s => s.base.mags band)).length := by
    rw [List.length_map]
    exact h1
  have hobs2 : (obsMags si v offs band).getD j 0
      = (si.map (fun s => s.base.mags band)).getD j 0
        + ((runOffsets si v [] offs).map (fun q => q.2.getD j 0)).sum := by
    show ((offsetFold si v offs []).foldl
        (fun acc q => List.zipWith (fun x y => x + y) acc q.2)
        (si.map (fun s => s.base.mags band))).getD j 0 = _
    rw [hfold]
    exact foldl_zipWith_getD (runOffsets si v [] offs)
      (si.map (fun s => s.base.mags band)) hlens j hjlt
  rw [hobs, hobs2, htm]
  congr 1
  exact getD_map_of_lt (fun s => s.base.mags band) si j h1 0 dStar

/-- C3: for every record of a successful run there is a visit of the run such
that the reported uncertainty squared is the external base error (taken at the
record's modeled magnitude and that visit's five-sigma depth) squared plus the
configured floor squared. -/
theorem C3_quadrature (K : Type) [LinearOrderedField K] (N : NumOps K)
    (project : List (ExtStar K) → Visit K → List (ExtStar K))
    (assignP : List (ExtStar K) → Visit K → ℕ → List (ExtStar K))
    (um : K → K → K) (visits : List (Visit K)) (stars : List (Star K))
    (offsets : Option (List (Offset K))) (band : String) (np : ℕ) (rf uf : K)
    (recs : List (ObsRecord K))
    (hsqrt : ∀ b m : K, N.sqrt (um b m ^ 2 + uf ^ 2) ^ 2 = um b m ^ 2 + uf ^ 2)
    (hgen : generate_catalog N project assignP um visits stars offsets band np rf uf
        = Except.ok (GenResult.results recs)) :
    ∀ rec ∈ recs, ∃ v ∈ visits,
      rec.mag_uncert ^ 2 = um rec.observed_mag v.fiveSigmaDepth ^ 2 + uf ^ 2 := by
  intro rec hrec
  cases offsets with
  | none =>
    have hwr : (Except.ok GenResult.warned : Except String (GenResult K))
        = Except.ok (GenResult.results recs) := hgen
    exact absurd (Except.ok.inj hwr) (by simp)
  | some offs =>
    cases htree : buildTree N ((stars.map extendStar).map (fun s => radians N s.base.ra))
        ((stars.map extendStar).map (fun s => radians N s.base.decl)) with
    | error e =>
      rw [generate_catalog_error N project assignP um visits stars offs band np rf uf
        e htree] at hgen
      exact absurd hgen (by simp)
    | ok tree =>
      obtain ⟨hne, hrecs⟩ := generate_catalog_ok N project assignP um visits stars offs
        band np rf uf tree recs htree hgen
      subst hrecs
      rw [List.mem_flatten] at hrec
      obtain ⟨l, hl, hrl⟩ := hrec
      rw [List.mem_map] at hl
      obtain ⟨v, hv, hlv⟩ := hl
      subst hlv
      obtain ⟨j, h1, h2, hobs, hunc, htm, hid⟩ := processVisit_mem N project assignP um
        tree (treeRadiusOf N rf) offs band np uf (stars.map extendStar) v rec hrl
      exact ⟨v, hv, by rw [hunc, hsqrt]⟩

/-- C8: in a successful run, a visit whose spatial query returns no candidate
indices contributes an empty record list, and the run as a whole still
succeeds. -/
theorem C8_empty_candidates_ok (K : Type) [LinearOrderedField K] (N : NumOps K)
    (project : List (ExtStar K) → Visit K → List (ExtStar K))
    (assignP : List (ExtStar K) → Visit K → ℕ → List (ExtStar K))
    (um : K → K → K) (visits : List (Visit K)) (stars : List (Star K))
    (offs : List (Offset K)) (band : String) (np : ℕ) (rf uf : K)
    (tree : List (K × K × K))
    (hvis : visits ≠ [])
    (htree : buildTree N ((stars.map extendStar).map (fun s => radians N s.base.ra))
        ((stars.map extendStar).map (fun s => radians N s.base.decl)) = Except.ok tree)
    (hproj : ∀ si v, (project si v).length = si.length)
    (hassign : ∀ si v n, (assignP si v n).length = si.length) :
    ∃ recs, generate_catalog N project assignP um visits stars (some offs) band np rf uf
        = Except.ok (GenResult.results recs) ∧
      recs = (visits.map (processVisit N project assignP um tree (treeRadiusOf N rf)
        offs band np uf (stars.map extendStar))).flatten ∧
      ∀ v ∈ visits, visitIndices N tree (treeRadiusOf N rf) v = [] →
        processVisit N project assignP um tree (treeRadiusOf N rf) offs band np uf
          (stars.map extendStar) v = [] := by
  refine ⟨_, generate_catalog_runs N project assignP um visits stars offs band np rf uf
    tree hvis htree, rfl, ?_⟩
  intro v hv hidx
  have hlen : (visitCandidates N project assignP tree (treeRadiusOf N rf) np
      (stars.map extendStar) v).length = 0 := by
    unfold visitCandidates
    rw [hassign, hproj, hidx]
    rfl
  have hsi := List.length_eq_zero.mp hlen
  simp [processVisit, hsi]

/-- C10: with an explicitly empty offsets list the pipeline runs instead of
warning, produces its records for every visit, and each record's observed
magnitude equals its true band magnitude, no delta applied. -/
theorem C10_empty_offsets_runs (K : Type) [LinearOrderedField K] (N : NumOps K)
    (project : List (ExtStar K) → Visit K → List (ExtStar K))
    (assignP : List (ExtStar K) → Visit K → ℕ → List (ExtStar K))
    (um : K → K → K) (visits : List (Visit K)) (stars : List (Star K))
    (band : String) (np : ℕ) (rf uf : K) (tree : List (K × K × K))
    (hvis : visits ≠ [])
    (htree : buildTree N ((stars.map extendStar).map (fun s => radians N s.base.ra))
        ((stars.map extendStar).map (fun s => radians N s.base.decl)) = Except.ok tree) :
    ∃ recs, generate_catalog N project assignP um visits stars (some []) band np rf uf
        = Except.ok (GenResult.results recs) ∧
      recs = (visits.map (processVisit N project assignP um tree (treeRadiusOf N rf)
        [] band np uf (stars.map extendStar))).flatten ∧
      ∀ rec ∈ recs, rec.observed_mag = rec.truemag := by
  refine ⟨_, generate_catalog_runs N project assignP um visits stars [] band np rf uf
    tree hvis htree, rfl, ?_⟩
  intro rec hrec
  rw [List.mem_flatten] at hrec
  obtain ⟨l, hl, hrl⟩ := hrec
  rw [List.mem_map] at hl
  obtain ⟨v, hv, hlv⟩ := hl
  subst hlv
  obtain ⟨j, h1, h2, hobs, hunc, htm, hid⟩ := processVisit_mem N project assignP um tree
    (treeRadiusOf N rf) [] band np uf (stars.map extendStar) v rec hrl
  rw [hobs, htm]
  exact getD_map_of_lt (fun s => s.base.mags band) _ j h1 0 dStar

theorem C1_composition_witness :
    ∃ v ∈ [visit1], ∃ j : ℕ,
      j < (visitCandidates (qNum 0) idProj idPatch [(1, 0, 0)] (treeRadiusOf (qNum 0) 0) 16
        ([star1].map extendStar) v).length ∧
      (⟨1, 0, 149/10, 0, 15, 0, 0⟩ : ObsRecord ℚ).truemag
        = ((visitCandidates (qNum 0) idProj idPatch [(1, 0, 0)]
          (treeRadiusOf (qNum 0) 0) 16 ([star1].map extendStar) v).getD j dStar).base.mags "r" ∧
      (⟨1, 0, 149/10, 0, 15, 0, 0⟩ : ObsRecord ℚ).observed_mag
        = (⟨1, 0, 149/10, 0, 15, 0, 0⟩ : ObsRecord ℚ).truemag
          + ((runOffsets (visitCandidates (qNum 0) idProj idPatch [(1, 0, 0)]
              (treeRadiusOf (qNum 0) 0) 16 ([star1].map extendStar) v) v [] [offZp]).map
              (fun q => q.2.getD j 0)).sum :=
  C1_composition ℚ (qNum 0) idProj idPatch zeroUm [visit1] [star1] [offZp] "r" 16 0 0
    [(1, 0, 0)] [⟨1, 0, 149/10, 0, 15, 0, 0⟩]
    (by simp)
    (by
      intro si v d o ho
      rw [List.mem_singleton] at ho
      subst ho
      simp [offZp])
    (by norm_num [buildTree, extendStar, star1, radians, qNum, treexyz])
    (by norm_num [generate_catalog, buildTree, treexyz, radians, qNum, star1, extendStar,
      treeRadiusOf, visitStep, processVisit, visitCandidates, visitIndices, queryBallPoint,
      dist3, visitDir, idProj, idPatch, obsMags, magErrs, offsetFold, dictInsert, offZp,
      zeroUm, List.range_succ])
    ⟨1, 0, 149/10, 0, 15, 0, 0⟩ (List.mem_singleton.mpr rfl)

theorem C3_quadrature_witness :
    ∃ v ∈ [visit1],
      (⟨1, 0, 15, 5/1000, 15, 0, 0⟩ : ObsRecord ℚ).mag_uncert ^ 2
        = (fun _ _ => (3/1000 : ℚ))
            (⟨1, 0, 15, 5/1000, 15, 0, 0⟩ : ObsRecord ℚ).observed_mag v.fiveSigmaDepth ^ 2
          + (4/1000 : ℚ) ^ 2 :=
  C3_quadrature ℚ (qNum (5/1000)) idProj idPatch (fun _ _ => 3/1000) [visit1] [star1]
    (some []) "r" 16 0 (4/1000) [⟨1, 0, 15, 5/1000, 15, 0, 0⟩]
    (fun b m => by norm_num [qNum])
    (by norm_num [generate_catalog, buildTree, treexyz, radians, qNum, star1, extendStar,
      treeRadiusOf, visitStep, processVisit, visitCandidates, visitIndices, queryBallPoint,
      dist3, visitDir, idProj, idPatch, obsMags, magErrs, offsetFold, List.range_succ])
    ⟨1, 0, 15, 5/1000, 15, 0, 0⟩ (List.mem_singleton.mpr rfl)

theorem C8_empty_candidates_ok_witness :
    ∃ recs, generate_catalog qNum2 idProj idPatch zeroUm [visit1, visitFar] [star1]
        (some []) "r" 16 0 0 = Except.ok (GenResult.results recs) ∧
      recs = ([visit1, visitFar].map (processVisit qNum2 idProj idPatch zeroUm [(1, 0, 0)]
        (treeRadiusOf qNum2 0) [] "r" 16 0 ([star1].map extendStar))).flatten ∧
      ∀ v ∈ [visit1, visitFar],
        visitIndices qNum2 [(1, 0, 0)] (treeRadiusOf qNum2 0) v = [] →
        processVisit qNum2 idProj idPatch zeroUm [(1, 0, 0)] (treeRadiusOf qNum2 0) [] "r"
          16 0 ([star1].map extendStar) v = [] :=
  C8_empty_candidates_ok ℚ qNum2 idProj idPatch zeroUm [visit1, visitFar] [star1] [] "r"
    16 0 0 [(1, 0, 0)] (by simp)
    (by norm_num [buildTree, extendStar, star1, radians, qNum2, treexyz])
    (fun si v => rfl) (fun si v n => rfl)

theorem C10_empty_offsets_runs_witness :
    ∃ recs, generate_catalog (qNum 0) idProj idPatch zeroUm [visit1] [star1] (some [])
        "r" 16 0 0 = Except.ok (GenResult.results recs) ∧
      recs = ([visit1].map (processVisit (qNum 0) idProj idPatch zeroUm [(1, 0, 0)]
        (treeRadiusOf (qNum 0) 0) [] "r" 16 0 ([star1].map extendStar))).flatten ∧
      ∀ rec ∈ recs, rec.observed_mag = rec.truemag :=
  C10_empty_offsets_runs ℚ (qNum 0) idProj idPatch zeroUm [visit1] [star1] "r" 16 0 0
    [(1, 0, 0)] (by simp)
    (by norm_num [buildTree, extendStar, star1, radians, qNum, treexyz])

end RubinSelfcal
